import Mathlib

set_option linter.unusedSectionVars false
set_option linter.unusedVariables false

/-!
# Variable-base scalar multiplication gate: embedding and verification

This file embeds the variable-base scalar-multiplication custom gate of
`kimchi/src/circuits/polynomials/varbasemul.rs` and proves properties of it.

Modelling conventions:
* Field elements live in an arbitrary `Field F`; all arithmetic from the Rust
  code is performed through that interface, mirroring the `FftField` bound.
* The witness table (`&mut [Vec<F>; COLUMNS]` in Rust, indexed `w[col][row]`)
  is a total function `Nat → Nat → F`; the generator mutates it by producing
  an updated function.
* A fallible computation (a Rust panicking division or a failed assertion)
  returns its table together with `none`; the successful path returns the
  table together with `some` result.  The cells written before the failure
  point stay written, matching the order of side effects in the source.
* Symbolic constraint expressions (the `E<F>` expression DSL, which is
  external to this repository) are embedded shallowly as evaluation
  functions `Env F → F` from cell assignments to field values; the
  common-subexpression `Cache` is semantically the identity.
-/

namespace VarbaseMul

/-- Row selector of a cell reference: the current row of the gate window or
the next one.  Modelled from the spec: the `CurrOrNext` enum and its `shift`
live in the external gate framework (`gate.rs`, not part of this repository);
the spec fixes the two-row window `(i, i+1)`, so `Curr` has offset `0` and
`Next` offset `1`. -/
inductive CurrOrNext : Type
  | Curr
  | Next
deriving DecidableEq

/-- Row offset of a `CurrOrNext` selector inside the two-row window. -/
def CurrOrNext.shift : CurrOrNext → Nat
  | .Curr => 0
  | .Next => 1

/-- A cell reference: a row selector and a witness-column index.  This embeds
the source's `Variable { row, col: Column::Witness(i) }`; only witness
columns are ever used by this gate. -/
structure Variable : Type where
  row : CurrOrNext
  col : Nat
deriving DecidableEq

/-- The witness table, `w[col][row]` in the source. -/
def Table (F : Type) : Type := Nat → Nat → F

/-- Rust `set`: `w[i][row0 + var.row.shift()] = x`. -/
def set {F : Type} (w : Table F) (row0 : Nat) (var : Variable) (x : F) : Table F :=
  fun i r => if i = var.col ∧ r = row0 + var.row.shift then x else w i r

/-- An assignment of field values to cells, used to evaluate symbolic
constraint expressions. -/
abbrev Env (F : Type) := Variable → F

/-- The assignment read off a witness table at a two-row gate window starting
at `row`: a `Curr` cell reads row `row`, a `Next` cell reads row `row + 1`. -/
def envOf {F : Type} (w : Table F) (row : Nat) : Env F :=
  fun var => w var.col (row + var.row.shift)

/-- Rust `const fn v(row, col)`. -/
def v (row : CurrOrNext) (col : Nat) : Variable := ⟨row, col⟩

/-- The `Layout` struct: positions of every logical quantity in the two-row
window.  The Rust arrays (`[_; 6]`, `[_; 5]`) become index functions. -/
structure Layout : Type where
  accs : Nat → Variable × Variable
  bits : Nat → Variable
  ss : Nat → Variable
  base : Variable × Variable
  n_prev : Variable
  n_next : Variable

/-- The `LAYOUT` constant.  `accs` is total on `Nat`; indices `5` and above
give the source's `accs[5]` (only `0..=5` are ever used). -/
def LAYOUT : Layout where
  accs := fun i =>
    match i with
    | 0 => (v .Curr 2, v .Curr 3)
    | 1 => (v .Curr 7, v .Curr 8)
    | 2 => (v .Curr 9, v .Curr 10)
    | 3 => (v .Curr 11, v .Curr 12)
    | 4 => (v .Curr 13, v .Curr 14)
    | _ => (v .Next 0, v .Next 1)
  bits := fun i => v .Next (2 + i)
  ss := fun i => v .Next (7 + i)
  base := (v .Curr 0, v .Curr 1)
  n_prev := v .Curr 4
  n_next := v .Curr 5

variable {F : Type} [Field F] [DecidableEq F]

/-- `s1_value` of `single_bit_witness`:
`(input.y - base.y * (2*b - 1)) / (input.x - base.x)`. -/
def s1val (b : F) (base input : F × F) : F :=
  (input.2 - base.2 * (2 * b - 1)) / (input.1 - base.1)

/-- `s2` of `single_bit_witness`:
`2*input.y / (2*input.x + base.x - s1^2) - s1`. -/
def s2val (b : F) (base input : F × F) : F :=
  2 * input.2 / (2 * input.1 + base.1 - s1val b base input * s1val b base input)
    - s1val b base input

/-- `out_x` of `single_bit_witness`: `base.x + s2^2 - s1^2`. -/
def outX (b : F) (base input : F × F) : F :=
  base.1 + s2val b base input * s2val b base input
    - s1val b base input * s1val b base input

/-- `out_y` of `single_bit_witness`: `(input.x - out_x) * s2 - input.y`. -/
def outY (b : F) (base input : F × F) : F :=
  (input.1 - outX b base input) * s2val b base input - input.2

/-- The output point of one concrete single-bit step. -/
def nextP (b : F) (base input : F × F) : F × F :=
  (outX b base input, outY b base input)

/-- `single_bit_witness`: writes the bit, the input point, the base point,
the chord slope `s1` and the output point into the table, returning the
output point.  The two field divisions are the two failure points: a zero
denominator aborts the computation (`none`), keeping the cells already
written, exactly as the panicking Rust division would. -/
def single_bit_witness (w : Table F) (row : Nat) (b : Variable)
    (base : Variable × Variable) (s1 : Variable)
    (input output : Variable × Variable)
    (b_value : F) (base_value input_value : F × F) :
    Table F × Option (F × F) :=
  let w := set w row b b_value
  let w := set w row input.1 input_value.1
  let w := set w row input.2 input_value.2
  let w := set w row base.1 base_value.1
  let w := set w row base.2 base_value.2
  if input_value.1 - base_value.1 = 0 then (w, none) else
  let w := set w row s1 (s1val b_value base_value input_value)
  if 2 * input_value.1 + base_value.1 -
      s1val b_value base_value input_value * s1val b_value base_value input_value = 0
  then (w, none) else
  let w := set w row output.1 (outX b_value base_value input_value)
  let w := set w row output.2 (outY b_value base_value input_value)
  (w, some (outX b_value base_value input_value, outY b_value base_value input_value))

/-- The inner bit loop of `witness`: for each bit (at layout index `i`) the
running scalar is doubled and the bit added, then `single_bit_witness` is
applied, chaining the accumulator.  Called on chunks of at most five bits. -/
def chunkLoop (row : Nat) (base_value : F × F) :
    List F → Table F → F × F → F → Nat → Table F × Option ((F × F) × F)
  | [], w, acc, n_acc, _ => (w, some (acc, n_acc))
  | bv :: rest, w, acc, n_acc, i =>
    let n_acc := 2 * n_acc + bv
    match single_bit_witness w row (LAYOUT.bits i) LAYOUT.base (LAYOUT.ss i)
        (LAYOUT.accs i) (LAYOUT.accs (i + 1)) bv base_value acc with
    | (w, none) => (w, none)
    | (w, some acc') => chunkLoop row base_value rest w acc' n_acc (i + 1)

/-- The chunk loop of `witness` (`bits.chunks(5)`): each chunk writes the
running scalar before it (`n_prev`), runs the bit loop in a fresh two-row
window, writes the running scalar after it (`n_next`) and advances two rows.
A final short chunk (length 1 to 4, which `witness` itself rules out by its
length check) is processed the same way. -/
def witnessChunks (base_value : F × F) :
    List F → Table F → Nat → F × F → F → Table F × Option ((F × F) × F)
  | [], w, _, acc, n => (w, some (acc, n))
  | b0 :: b1 :: b2 :: b3 :: b4 :: rest, w, row, acc, n =>
    let w := set w row LAYOUT.n_prev n
    match chunkLoop row base_value [b0, b1, b2, b3, b4] w acc n 0 with
    | (w, none) => (w, none)
    | (w, some (acc, n)) =>
      witnessChunks base_value rest (set w row LAYOUT.n_next n) (row + 2) acc n
  | bs, w, row, acc, n =>
    let w := set w row LAYOUT.n_prev n
    match chunkLoop row base_value bs w acc n 0 with
    | (w, none) => (w, none)
    | (w, some (acc, n)) => (set w row LAYOUT.n_next n, some (acc, n))

/-- `F::from(b as u64)` applied to a boolean bit. -/
def boolToF (b : Bool) : F := if b then 1 else 0

/-- `witness`: converts the bits to field elements, checks
`assert_eq!(5 * (bits.len() / 5), bits.len())` before touching the table,
then processes the chunks.  On a failed length check the original table is
returned untouched together with `none` (the assertion fires before any
write). -/
def witness (w : Table F) (row0 : Nat) (base : F × F) (bits : List Bool)
    (acc0 : F × F) : Table F × Option ((F × F) × F) :=
  if 5 * (bits.length / 5) = bits.length then
    witnessChunks base (bits.map boolToF) w row0 acc0 0
  else (w, none)

/-- The cached expression `rx = s1^2 - input.x - base.x` of `single_bit`. -/
def sbRx (s1 : Variable) (input base : Variable × Variable) : Env F → F :=
  fun env => env s1 * env s1 - env input.1 - env base.1

/-- The cached expression `t = input.x - rx` of `single_bit`. -/
def sbT (s1 : Variable) (input base : Variable × Variable) : Env F → F :=
  fun env => env input.1 - sbRx s1 input base env

/-- The cached expression `u = 2*input.y - t * s1` of `single_bit`. -/
def sbU (s1 : Variable) (input base : Variable × Variable) : Env F → F :=
  fun env => (env input.2 + env input.2) - sbT s1 input base env * env s1

/-- `single_bit`: the four symbolic constraints emitted for one bit, in
source order: booleanity, chord slope, output x, output y. -/
def single_bit (b : Variable) (base : Variable × Variable) (s1 : Variable)
    (input output : Variable × Variable) : List (Env F → F) :=
  [fun env => env b * env b - env b,
   fun env => (env input.1 - env base.1) * env s1 -
     (env input.2 - (env b + env b - 1) * env base.2),
   fun env => sbU s1 input base env * sbU s1 input base env -
     sbT s1 input base env * sbT s1 input base env *
       (env output.1 - env base.1 + env s1 * env s1),
   fun env => (env output.2 + env input.2) * sbT s1 input base env -
     (env input.1 - env output.1) * sbU s1 input base env]

/-- `VarbaseMul::CONSTRAINTS`. -/
def CONSTRAINTS : Nat := 21

/-- `VarbaseMul::constraints()`: the running-scalar recurrence followed by
the four per-bit constraints for each of the five bits. -/
def constraints : List (Env F → F) :=
  (fun env =>
    env LAYOUT.n_next -
      List.foldl (fun acc b => env b + (acc + acc)) (env LAYOUT.n_prev)
        [LAYOUT.bits 0, LAYOUT.bits 1, LAYOUT.bits 2, LAYOUT.bits 3, LAYOUT.bits 4]) ::
  (single_bit (LAYOUT.bits 0) LAYOUT.base (LAYOUT.ss 0) (LAYOUT.accs 0) (LAYOUT.accs 1) ++
   single_bit (LAYOUT.bits 1) LAYOUT.base (LAYOUT.ss 1) (LAYOUT.accs 1) (LAYOUT.accs 2) ++
   single_bit (LAYOUT.bits 2) LAYOUT.base (LAYOUT.ss 2) (LAYOUT.accs 2) (LAYOUT.accs 3) ++
   single_bit (LAYOUT.bits 3) LAYOUT.base (LAYOUT.ss 3) (LAYOUT.accs 3) (LAYOUT.accs 4) ++
   single_bit (LAYOUT.bits 4) LAYOUT.base (LAYOUT.ss 4) (LAYOUT.accs 4) (LAYOUT.accs 5))

/-- The table produced by a successful `single_bit_witness` call: the eight
writes in source order (bit, input point, base point, chord slope, output
point). -/
def sbwTab (w : Table F) (row : Nat) (b : Variable) (base : Variable × Variable)
    (s1 : Variable) (input output : Variable × Variable)
    (b_value : F) (base_value input_value : F × F) : Table F :=
  set (set (set (set (set (set (set (set w row b b_value)
    row input.1 input_value.1) row input.2 input_value.2)
    row base.1 base_value.1) row base.2 base_value.2)
    row s1 (s1val b_value base_value input_value))
    row output.1 (outX b_value base_value input_value))
    row output.2 (outY b_value base_value input_value)

/-- Success condition of a sequence of single-bit steps: at every step, both
divisions of `single_bit_witness` have a nonzero denominator. -/
def stepsOk (base_value : F × F) : List F → F × F → Prop
  | [], _ => True
  | bv :: rest, acc =>
    acc.1 - base_value.1 ≠ 0 ∧
    2 * acc.1 + base_value.1 - s1val bv base_value acc * s1val bv base_value acc ≠ 0 ∧
    stepsOk base_value rest (nextP bv base_value acc)

/-- The running scalar after consuming a list of bit values:
each bit doubles the scalar and is added to it. -/
def nAfter (n : F) (bs : List F) : F := bs.foldl (fun a bv => 2 * a + bv) n

/-- The accumulator point after a sequence of single-bit steps. -/
def accAfter (base_value : F × F) (acc : F × F) (bs : List F) : F × F :=
  bs.foldl (fun P bv => nextP bv base_value P) acc

/-- The table produced by a successful run of the inner bit loop
(`chunkLoop` without its result). -/
def chunkLoopTab (row : Nat) (base_value : F × F) :
    List F → Table F → F × F → Nat → Table F
  | [], w, _, _ => w
  | bv :: rest, w, acc, i =>
    chunkLoopTab row base_value rest
      (sbwTab w row (LAYOUT.bits i) LAYOUT.base (LAYOUT.ss i)
        (LAYOUT.accs i) (LAYOUT.accs (i + 1)) bv base_value acc)
      (nextP bv base_value acc) (i + 1)

/-- The two-row window table written by one successful chunk of the witness
generator: `n_prev`, the five single-bit steps, `n_next`. -/
def chunkTab (w : Table F) (row : Nat) (base_value : F × F) (bs : List F)
    (acc : F × F) (n : F) : Table F :=
  set (chunkLoopTab row base_value bs (set w row LAYOUT.n_prev n) acc 0)
    row LAYOUT.n_next (nAfter n bs)

/-- Gate-type tags used by this module (the full enum lives in the external
gate framework). -/
inductive GateType : Type
  | VarBaseMul
  | Zero
deriving DecidableEq

/-- A circuit gate: its type tag and coefficients (the wire permutation data
of the external framework is irrelevant to this gate's behaviour). -/
structure CircuitGate (F : Type) : Type where
  typ : GateType
  coeffs : List F

/-- `CircuitGate::verify_vbmul`: the per-gate verification entry point.
The source body is `// TODO: implement` followed by `Ok(())`. -/
def verify_vbmul (_g : CircuitGate F) (_row : Nat) (_wit : Table F) :
    Except String Unit :=
  Except.ok ()

end VarbaseMul

/-! ## A small concrete field with kernel-computable division

For concrete evaluations (witness instances and counterexamples) we use the
field with 13 elements, built on `Fin 13` with the inverse given by
`x ^ 11` (Fermat), so that every operation reduces in the kernel. -/

/-- The field with 13 elements, as a fresh type so that the integer-division
instances of `Fin` do not leak in. -/
def GF13 : Type := Fin 13

instance : Zero GF13 := inferInstanceAs (Zero (Fin 13))

instance : One GF13 := inferInstanceAs (One (Fin 13))

instance : Add GF13 := inferInstanceAs (Add (Fin 13))

instance : Mul GF13 := inferInstanceAs (Mul (Fin 13))

instance : Neg GF13 := inferInstanceAs (Neg (Fin 13))

instance : DecidableEq GF13 := inferInstanceAs (DecidableEq (Fin 13))

instance : Fintype GF13 := inferInstanceAs (Fintype (Fin 13))

/-- Multiplicative inverse on `Fin 13` by Fermat's little theorem. -/
def gfInv (x : Fin 13) : Fin 13 := x ^ 11

instance : Inv GF13 := ⟨fun x => gfInv x⟩

instance : Field GF13 :=
  Field.ofMinimalAxioms GF13 (by decide) (by decide) (by decide) (by decide)
    (by decide) (by decide) (by decide) (by decide) (by decide) ⟨0, 1, by decide⟩

namespace VarbaseMul

/-- The all-zero witness table over `GF13`, used as the ambient table of the
concrete evaluations. -/
def w0 : Table GF13 := fun _ _ => 0

/-- A concrete base point for which the sample runs below succeed. -/
def Tc : GF13 × GF13 := (1, 1)

/-- A concrete initial accumulator for which the sample runs below succeed. -/
def Pc : GF13 × GF13 := (2, 3)

end VarbaseMul

namespace VarbaseMul

set_option linter.unusedSectionVars false

variable {F : Type} [Field F] [DecidableEq F]

theorem shift_le_one (ro : CurrOrNext) : ro.shift ≤ 1 := by
  cases ro <;> simp [CurrOrNext.shift]

theorem set_out {r row0 : Nat} (h : r < row0 ∨ row0 + 2 ≤ r) (w : Table F)
    (var : Variable) (x : F) (c : Nat) :
    set w row0 var x c r = w c r := by
  unfold set
  rw [if_neg]
  rintro ⟨-, rfl⟩
  have := shift_le_one var.row
  omega

theorem single_bit_witness_out {r row : Nat} (h : r < row ∨ row + 2 ≤ r)
    (w : Table F) (b : Variable) (base : Variable × Variable) (s1 : Variable)
    (input output : Variable × Variable) (bv : F) (tv pv : F × F) (c : Nat) :
    (single_bit_witness w row b base s1 input output bv tv pv).1 c r = w c r := by
  simp only [single_bit_witness]
  split_ifs <;> simp only [set_out h]

theorem single_bit_witness_eq (w : Table F) (row : Nat) (b : Variable)
    (base : Variable × Variable) (s1 : Variable) (input output : Variable × Variable)
    (bv : F) (tv pv : F × F)
    (h1 : pv.1 - tv.1 ≠ 0)
    (h2 : 2 * pv.1 + tv.1 - s1val bv tv pv * s1val bv tv pv ≠ 0) :
    single_bit_witness w row b base s1 input output bv tv pv =
      (sbwTab w row b base s1 input output bv tv pv, some (nextP bv tv pv)) := by
  simp only [single_bit_witness, sbwTab, nextP, if_neg h1, if_neg h2]

theorem single_bit_witness_some {w : Table F} {row : Nat} {b : Variable}
    {base : Variable × Variable} {s1 : Variable} {input output : Variable × Variable}
    {bv : F} {tv pv : F × F} {w' : Table F} {out : F × F}
    (hs : single_bit_witness w row b base s1 input output bv tv pv = (w', some out)) :
    pv.1 - tv.1 ≠ 0 ∧
      2 * pv.1 + tv.1 - s1val bv tv pv * s1val bv tv pv ≠ 0 ∧
      out = nextP bv tv pv ∧ w' = sbwTab w row b base s1 input output bv tv pv := by
  simp only [single_bit_witness] at hs
  split_ifs at hs with h1 h2
  · simp at hs
  · simp at hs
  · refine ⟨h1, h2, ?_, ?_⟩
    · injection hs with hw ho
      injection ho with ho
      simp [← ho, nextP]
    · injection hs with hw ho
      simp [← hw, sbwTab]


theorem chunkLoop_out {r row : Nat} (h : r < row ∨ row + 2 ≤ r) (base_value : F × F) :
    ∀ (bs : List F) (w : Table F) (acc : F × F) (n : F) (i c : Nat),
      (chunkLoop row base_value bs w acc n i).1 c r = w c r := by
  intro bs
  induction bs with
  | nil => intro w acc n i c; rfl
  | cons bv rest ih =>
    intro w acc n i c
    simp only [chunkLoop]
    rcases hsb : single_bit_witness w row (LAYOUT.bits i) LAYOUT.base (LAYOUT.ss i)
        (LAYOUT.accs i) (LAYOUT.accs (i + 1)) bv base_value acc with ⟨w2, o⟩
    have hw2 : w2 c r = w c r := by
      have := single_bit_witness_out h w (LAYOUT.bits i) LAYOUT.base (LAYOUT.ss i)
        (LAYOUT.accs i) (LAYOUT.accs (i + 1)) bv base_value acc c
      rwa [hsb] at this
    cases o with
    | none => simpa using hw2
    | some acc2 => simpa using (ih w2 acc2 (2 * n + bv) (i + 1) c).trans hw2

theorem chunkLoop_eq (row : Nat) (base_value : F × F) :
    ∀ (bs : List F) (w : Table F) (acc : F × F) (n : F) (i : Nat),
      stepsOk base_value bs acc →
      chunkLoop row base_value bs w acc n i =
        (chunkLoopTab row base_value bs w acc i,
          some (accAfter base_value acc bs, nAfter n bs)) := by
  intro bs
  induction bs with
  | nil => intro w acc n i _; rfl
  | cons bv rest ih =>
    intro w acc n i hok
    obtain ⟨h1, h2, hrest⟩ := hok
    simp only [chunkLoop, chunkLoopTab,
      single_bit_witness_eq w row (LAYOUT.bits i) LAYOUT.base (LAYOUT.ss i)
        (LAYOUT.accs i) (LAYOUT.accs (i + 1)) bv base_value acc h1 h2]
    rw [ih _ _ _ _ hrest]
    simp [accAfter, nAfter]

theorem chunkLoop_some (row : Nat) (base_value : F × F) :
    ∀ (bs : List F) (w : Table F) (acc : F × F) (n : F) (i : Nat)
      (w' : Table F) (res : (F × F) × F),
      chunkLoop row base_value bs w acc n i = (w', some res) →
      stepsOk base_value bs acc := by
  intro bs
  induction bs with
  | nil => intro w acc n i w' res _; trivial
  | cons bv rest ih =>
    intro w acc n i w' res hcl
    simp only [chunkLoop] at hcl
    rcases hsb : single_bit_witness w row (LAYOUT.bits i) LAYOUT.base (LAYOUT.ss i)
        (LAYOUT.accs i) (LAYOUT.accs (i + 1)) bv base_value acc with ⟨w2, o⟩
    rw [hsb] at hcl
    cases o with
    | none => simp at hcl
    | some acc2 =>
      obtain ⟨h1, h2, hacc2, -⟩ := single_bit_witness_some hsb
      subst hacc2
      exact ⟨h1, h2, ih _ _ _ _ _ _ hcl⟩

end VarbaseMul

namespace VarbaseMul

variable {F : Type} [Field F] [DecidableEq F]

theorem witnessChunks_out (base_value : F × F) (bs : List F) (w : Table F)
    (row : Nat) (acc : F × F) (n : F) :
    ∀ c r, r < row → (witnessChunks base_value bs w row acc n).1 c r = w c r := by
  induction bs, w, row, acc, n using witnessChunks.induct base_value with
  | case1 w row acc n => intro c r hr; rfl
  | case2 b0 b1 b2 b3 b4 rest w row acc n wp w2 hcl =>
    intro c r hr
    have hcl' : chunkLoop row base_value [b0, b1, b2, b3, b4]
        (set w row LAYOUT.n_prev n) acc n 0 = (w2, none) := hcl
    rw [witnessChunks.eq_2, hcl']
    have h2 : w2 c r = (set w row LAYOUT.n_prev n) c r := by
      have := chunkLoop_out (Or.inl hr) base_value [b0, b1, b2, b3, b4]
        (set w row LAYOUT.n_prev n) acc n 0 c
      rwa [hcl'] at this
    exact h2.trans (set_out (Or.inl hr) w LAYOUT.n_prev n c)
  | case3 b0 b1 b2 b3 b4 rest w row acc n wp w2 acc2 n2 hcl ih =>
    intro c r hr
    have hcl' : chunkLoop row base_value [b0, b1, b2, b3, b4]
        (set w row LAYOUT.n_prev n) acc n 0 = (w2, some (acc2, n2)) := hcl
    rw [witnessChunks.eq_2, hcl']
    have h2 : w2 c r = (set w row LAYOUT.n_prev n) c r := by
      have := chunkLoop_out (Or.inl hr) base_value [b0, b1, b2, b3, b4]
        (set w row LAYOUT.n_prev n) acc n 0 c
      rwa [hcl'] at this
    calc (witnessChunks base_value rest (set w2 row LAYOUT.n_next n2) (row + 2) acc2 n2).1 c r
        = (set w2 row LAYOUT.n_next n2) c r := ih c r (by omega)
      _ = w2 c r := set_out (Or.inl hr) w2 LAYOUT.n_next n2 c
      _ = (set w row LAYOUT.n_prev n) c r := h2
      _ = w c r := set_out (Or.inl hr) w LAYOUT.n_prev n c
  | case4 bs w row acc n hne hns wp w2 hcl =>
    intro c r hr
    have hcl' : chunkLoop row base_value bs
        (set w row LAYOUT.n_prev n) acc n 0 = (w2, none) := hcl
    rw [witnessChunks.eq_3 base_value bs w row acc n hne hns, hcl']
    have h2 : w2 c r = (set w row LAYOUT.n_prev n) c r := by
      have := chunkLoop_out (Or.inl hr) base_value bs
        (set w row LAYOUT.n_prev n) acc n 0 c
      rwa [hcl'] at this
    exact h2.trans (set_out (Or.inl hr) w LAYOUT.n_prev n c)
  | case5 bs w row acc n hne hns wp w2 acc2 n2 hcl =>
    intro c r hr
    have hcl' : chunkLoop row base_value bs
        (set w row LAYOUT.n_prev n) acc n 0 = (w2, some (acc2, n2)) := hcl
    rw [witnessChunks.eq_3 base_value bs w row acc n hne hns, hcl']
    have h2 : w2 c r = (set w row LAYOUT.n_prev n) c r := by
      have := chunkLoop_out (Or.inl hr) base_value bs
        (set w row LAYOUT.n_prev n) acc n 0 c
      rwa [hcl'] at this
    calc (set w2 row LAYOUT.n_next n2) c r
        = w2 c r := set_out (Or.inl hr) w2 LAYOUT.n_next n2 c
      _ = (set w row LAYOUT.n_prev n) c r := h2
      _ = w c r := set_out (Or.inl hr) w LAYOUT.n_prev n c

theorem witnessChunks_cons_eq (base_value : F × F) (b0 b1 b2 b3 b4 : F)
    (rest : List F) (w : Table F) (row : Nat) (acc : F × F) (n : F)
    (hok : stepsOk base_value [b0, b1, b2, b3, b4] acc) :
    witnessChunks base_value (b0 :: b1 :: b2 :: b3 :: b4 :: rest) w row acc n =
      witnessChunks base_value rest
        (chunkTab w row base_value [b0, b1, b2, b3, b4] acc n) (row + 2)
        (accAfter base_value acc [b0, b1, b2, b3, b4])
        (nAfter n [b0, b1, b2, b3, b4]) := by
  rw [witnessChunks.eq_2,
    chunkLoop_eq row base_value [b0, b1, b2, b3, b4]
      (set w row LAYOUT.n_prev n) acc n 0 hok]
  rfl

theorem witnessChunks_cons_some {base_value : F × F} {b0 b1 b2 b3 b4 : F}
    {rest : List F} {w : Table F} {row : Nat} {acc : F × F} {n : F}
    {w' : Table F} {res : (F × F) × F}
    (hs : witnessChunks base_value (b0 :: b1 :: b2 :: b3 :: b4 :: rest) w row acc n =
      (w', some res)) :
    stepsOk base_value [b0, b1, b2, b3, b4] acc := by
  rw [witnessChunks.eq_2] at hs
  rcases hcl : chunkLoop row base_value [b0, b1, b2, b3, b4]
      (set w row LAYOUT.n_prev n) acc n 0 with ⟨w2, o⟩
  rw [hcl] at hs
  cases o with
  | none => simp at hs
  | some p => exact chunkLoop_some row base_value _ _ _ _ _ _ _ hcl

theorem witnessChunks_window (base_value : F × F) :
    ∀ (cN : Nat) (bs : List F) (w : Table F) (row : Nat) (acc : F × F) (n : F)
      (w' : Table F) (res : (F × F) × F),
      witnessChunks base_value bs w row acc n = (w', some res) →
      5 * cN + 5 ≤ bs.length →
      ∃ (wc : Table F) (c0 c1 c2 c3 c4 : F) (accPrev : F × F) (nPrev : F),
        (bs.drop (5 * cN)).take 5 = [c0, c1, c2, c3, c4] ∧
        stepsOk base_value [c0, c1, c2, c3, c4] accPrev ∧
        envOf w' (row + 2 * cN) =
          envOf (chunkTab wc (row + 2 * cN) base_value [c0, c1, c2, c3, c4]
            accPrev nPrev) (row + 2 * cN) := by
  intro cN
  induction cN with
  | zero =>
    intro bs w row acc n w' res hs hlen
    rcases bs with _ | ⟨b0, bs⟩
    · exact absurd hlen (by simp)
    rcases bs with _ | ⟨b1, bs⟩
    · exact absurd hlen (by simp)
    rcases bs with _ | ⟨b2, bs⟩
    · exact absurd hlen (by simp)
    rcases bs with _ | ⟨b3, bs⟩
    · exact absurd hlen (by simp)
    rcases bs with _ | ⟨b4, rest⟩
    · exact absurd hlen (by simp)
    have hok := witnessChunks_cons_some hs
    rw [witnessChunks_cons_eq base_value b0 b1 b2 b3 b4 rest w row acc n hok] at hs
    refine ⟨w, b0, b1, b2, b3, b4, acc, n, by simp, hok, ?_⟩
    have hfst := congrArg Prod.fst hs
    funext var
    simp only [envOf, Nat.mul_zero, Nat.add_zero]
    have hsh := shift_le_one var.row
    have hout := witnessChunks_out base_value rest
      (chunkTab w row base_value [b0, b1, b2, b3, b4] acc n) (row + 2)
      (accAfter base_value acc [b0, b1, b2, b3, b4])
      (nAfter n [b0, b1, b2, b3, b4]) var.col (row + var.row.shift) (by omega)
    rw [hfst] at hout
    exact hout
  | succ cN ih =>
    intro bs w row acc n w' res hs hlen
    rcases bs with _ | ⟨b0, bs⟩
    · exact absurd hlen (by simp)
    rcases bs with _ | ⟨b1, bs⟩
    · exact absurd hlen (by simp)
    rcases bs with _ | ⟨b2, bs⟩
    · exact absurd hlen (by simp)
    rcases bs with _ | ⟨b3, bs⟩
    · exact absurd hlen (by simp)
    rcases bs with _ | ⟨b4, rest⟩
    · exact absurd hlen (by simp)
    have hok := witnessChunks_cons_some hs
    rw [witnessChunks_cons_eq base_value b0 b1 b2 b3 b4 rest w row acc n hok] at hs
    have hlen' : 5 * cN + 5 ≤ rest.length := by
      simp only [List.length_cons] at hlen
      omega
    obtain ⟨wc, c0, c1, c2, c3, c4, accPrev, nPrev, hdrop, hsteps, henv⟩ :=
      ih rest (chunkTab w row base_value [b0, b1, b2, b3, b4] acc n) (row + 2)
        (accAfter base_value acc [b0, b1, b2, b3, b4])
        (nAfter n [b0, b1, b2, b3, b4]) w' res hs hlen'
    refine ⟨wc, c0, c1, c2, c3, c4, accPrev, nPrev, ?_, hsteps, ?_⟩
    · have h55 : 5 * (cN + 1) = 5 * cN + 5 := by ring
      rw [h55, show (5 : Nat) * cN + 5 = 5 + 5 * cN by ring, ← List.drop_drop]
      simpa using hdrop
    · have harr : row + 2 * (cN + 1) = row + 2 + 2 * cN := by ring
      rw [harr]
      exact henv

theorem rd_baseX (w : Table F) (row : Nat) (base_value P0 : F × F)
    (b0 b1 b2 b3 b4 n : F) :
    envOf (chunkTab w row base_value [b0, b1, b2, b3, b4] P0 n) row LAYOUT.base.1 = base_value.1 := by
  simp [chunkTab, chunkLoopTab, sbwTab, set, envOf, LAYOUT, v, CurrOrNext.shift, nAfter]

theorem rd_baseY (w : Table F) (row : Nat) (base_value P0 : F × F)
    (b0 b1 b2 b3 b4 n : F) :
    envOf (chunkTab w row base_value [b0, b1, b2, b3, b4] P0 n) row LAYOUT.base.2 = base_value.2 := by
  simp [chunkTab, chunkLoopTab, sbwTab, set, envOf, LAYOUT, v, CurrOrNext.shift, nAfter]

theorem rd_nPrev (w : Table F) (row : Nat) (base_value P0 : F × F)
    (b0 b1 b2 b3 b4 n : F) :
    envOf (chunkTab w row base_value [b0, b1, b2, b3, b4] P0 n) row LAYOUT.n_prev = n := by
  simp [chunkTab, chunkLoopTab, sbwTab, set, envOf, LAYOUT, v, CurrOrNext.shift, nAfter]

theorem rd_nNext (w : Table F) (row : Nat) (base_value P0 : F × F)
    (b0 b1 b2 b3 b4 n : F) :
    envOf (chunkTab w row base_value [b0, b1, b2, b3, b4] P0 n) row LAYOUT.n_next = nAfter n [b0, b1, b2, b3, b4] := by
  simp [chunkTab, chunkLoopTab, sbwTab, set, envOf, LAYOUT, v, CurrOrNext.shift]

theorem rd_acc0x (w : Table F) (row : Nat) (base_value P0 : F × F)
    (b0 b1 b2 b3 b4 n : F) :
    envOf (chunkTab w row base_value [b0, b1, b2, b3, b4] P0 n) row (LAYOUT.accs 0).1 = P0.1 := by
  simp [chunkTab, chunkLoopTab, sbwTab, set, envOf, LAYOUT, v, CurrOrNext.shift, nAfter]

theorem rd_acc0y (w : Table F) (row : Nat) (base_value P0 : F × F)
    (b0 b1 b2 b3 b4 n : F) :
    envOf (chunkTab w row base_value [b0, b1, b2, b3, b4] P0 n) row (LAYOUT.accs 0).2 = P0.2 := by
  simp [chunkTab, chunkLoopTab, sbwTab, set, envOf, LAYOUT, v, CurrOrNext.shift, nAfter]

theorem rd_acc1x (w : Table F) (row : Nat) (base_value P0 : F × F)
    (b0 b1 b2 b3 b4 n : F) :
    envOf (chunkTab w row base_value [b0, b1, b2, b3, b4] P0 n) row (LAYOUT.accs 1).1 = (nextP b0 base_value P0).1 := by
  simp [chunkTab, chunkLoopTab, sbwTab, set, envOf, LAYOUT, v, CurrOrNext.shift, nAfter]

theorem rd_acc1y (w : Table F) (row : Nat) (base_value P0 : F × F)
    (b0 b1 b2 b3 b4 n : F) :
    envOf (chunkTab w row base_value [b0, b1, b2, b3, b4] P0 n) row (LAYOUT.accs 1).2 = (nextP b0 base_value P0).2 := by
  simp [chunkTab, chunkLoopTab, sbwTab, set, envOf, LAYOUT, v, CurrOrNext.shift, nAfter]

theorem rd_acc2x (w : Table F) (row : Nat) (base_value P0 : F × F)
    (b0 b1 b2 b3 b4 n : F) :
    envOf (chunkTab w row base_value [b0, b1, b2, b3, b4] P0 n) row (LAYOUT.accs 2).1 = (nextP b1 base_value (nextP b0 base_value P0)).1 := by
  simp [chunkTab, chunkLoopTab, sbwTab, set, envOf, LAYOUT, v, CurrOrNext.shift, nAfter]

theorem rd_acc2y (w : Table F) (row : Nat) (base_value P0 : F × F)
    (b0 b1 b2 b3 b4 n : F) :
    envOf (chunkTab w row base_value [b0, b1, b2, b3, b4] P0 n) row (LAYOUT.accs 2).2 = (nextP b1 base_value (nextP b0 base_value P0)).2 := by
  simp [chunkTab, chunkLoopTab, sbwTab, set, envOf, LAYOUT, v, CurrOrNext.shift, nAfter]

theorem rd_acc3x (w : Table F) (row : Nat) (base_value P0 : F × F)
    (b0 b1 b2 b3 b4 n : F) :
    envOf (chunkTab w row base_value [b0, b1, b2, b3, b4] P0 n) row (LAYOUT.accs 3).1 = (nextP b2 base_value (nextP b1 base_value (nextP b0 base_value P0))).1 := by
  simp [chunkTab, chunkLoopTab, sbwTab, set, envOf, LAYOUT, v, CurrOrNext.shift, nAfter]

theorem rd_acc3y (w : Table F) (row : Nat) (base_value P0 : F × F)
    (b0 b1 b2 b3 b4 n : F) :
    envOf (chunkTab w row base_value [b0, b1, b2, b3, b4] P0 n) row (LAYOUT.accs 3).2 = (nextP b2 base_value (nextP b1 base_value (nextP b0 base_value P0))).2 := by
  simp [chunkTab, chunkLoopTab, sbwTab, set, envOf, LAYOUT, v, CurrOrNext.shift, nAfter]

theorem rd_acc4x (w : Table F) (row : Nat) (base_value P0 : F × F)
    (b0 b1 b2 b3 b4 n : F) :
    envOf (chunkTab w row base_value [b0, b1, b2, b3, b4] P0 n) row (LAYOUT.accs 4).1 = (nextP b3 base_value (nextP b2 base_value (nextP b1 base_value (nextP b0 base_value P0)))).1 := by
  simp [chunkTab, chunkLoopTab, sbwTab, set, envOf, LAYOUT, v, CurrOrNext.shift, nAfter]

theorem rd_acc4y (w : Table F) (row : Nat) (base_value P0 : F × F)
    (b0 b1 b2 b3 b4 n : F) :
    envOf (chunkTab w row base_value [b0, b1, b2, b3, b4] P0 n) row (LAYOUT.accs 4).2 = (nextP b3 base_value (nextP b2 base_value (nextP b1 base_value (nextP b0 base_value P0)))).2 := by
  simp [chunkTab, chunkLoopTab, sbwTab, set, envOf, LAYOUT, v, CurrOrNext.shift, nAfter]

theorem rd_acc5x (w : Table F) (row : Nat) (base_value P0 : F × F)
    (b0 b1 b2 b3 b4 n : F) :
    envOf (chunkTab w row base_value [b0, b1, b2, b3, b4] P0 n) row (LAYOUT.accs 5).1 = (nextP b4 base_value (nextP b3 base_value (nextP b2 base_value (nextP b1 base_value (nextP b0 base_value P0))))).1 := by
  simp [chunkTab, chunkLoopTab, sbwTab, set, envOf, LAYOUT, v, CurrOrNext.shift, nAfter, nextP]

theorem rd_acc5y (w : Table F) (row : Nat) (base_value P0 : F × F)
    (b0 b1 b2 b3 b4 n : F) :
    envOf (chunkTab w row base_value [b0, b1, b2, b3, b4] P0 n) row (LAYOUT.accs 5).2 = (nextP b4 base_value (nextP b3 base_value (nextP b2 base_value (nextP b1 base_value (nextP b0 base_value P0))))).2 := by
  simp [chunkTab, chunkLoopTab, sbwTab, set, envOf, LAYOUT, v, CurrOrNext.shift, nAfter, nextP]

theorem rd_bit0 (w : Table F) (row : Nat) (base_value P0 : F × F)
    (b0 b1 b2 b3 b4 n : F) :
    envOf (chunkTab w row base_value [b0, b1, b2, b3, b4] P0 n) row (LAYOUT.bits 0) = b0 := by
  simp [chunkTab, chunkLoopTab, sbwTab, set, envOf, LAYOUT, v, CurrOrNext.shift, nAfter]

theorem rd_bit1 (w : Table F) (row : Nat) (base_value P0 : F × F)
    (b0 b1 b2 b3 b4 n : F) :
    envOf (chunkTab w row base_value [b0, b1, b2, b3, b4] P0 n) row (LAYOUT.bits 1) = b1 := by
  simp [chunkTab, chunkLoopTab, sbwTab, set, envOf, LAYOUT, v, CurrOrNext.shift, nAfter]

theorem rd_bit2 (w : Table F) (row : Nat) (base_value P0 : F × F)
    (b0 b1 b2 b3 b4 n : F) :
    envOf (chunkTab w row base_value [b0, b1, b2, b3, b4] P0 n) row (LAYOUT.bits 2) = b2 := by
  simp [chunkTab, chunkLoopTab, sbwTab, set, envOf, LAYOUT, v, CurrOrNext.shift, nAfter]

theorem rd_bit3 (w : Table F) (row : Nat) (base_value P0 : F × F)
    (b0 b1 b2 b3 b4 n : F) :
    envOf (chunkTab w row base_value [b0, b1, b2, b3, b4] P0 n) row (LAYOUT.bits 3) = b3 := by
  simp [chunkTab, chunkLoopTab, sbwTab, set, envOf, LAYOUT, v, CurrOrNext.shift, nAfter]

theorem rd_bit4 (w : Table F) (row : Nat) (base_value P0 : F × F)
    (b0 b1 b2 b3 b4 n : F) :
    envOf (chunkTab w row base_value [b0, b1, b2, b3, b4] P0 n) row (LAYOUT.bits 4) = b4 := by
  simp [chunkTab, chunkLoopTab, sbwTab, set, envOf, LAYOUT, v, CurrOrNext.shift, nAfter]

theorem rd_ss0 (w : Table F) (row : Nat) (base_value P0 : F × F)
    (b0 b1 b2 b3 b4 n : F) :
    envOf (chunkTab w row base_value [b0, b1, b2, b3, b4] P0 n) row (LAYOUT.ss 0) = s1val b0 base_value P0 := by
  simp [chunkTab, chunkLoopTab, sbwTab, set, envOf, LAYOUT, v, CurrOrNext.shift, nAfter]

theorem rd_ss1 (w : Table F) (row : Nat) (base_value P0 : F × F)
    (b0 b1 b2 b3 b4 n : F) :
    envOf (chunkTab w row base_value [b0, b1, b2, b3, b4] P0 n) row (LAYOUT.ss 1) = s1val b1 base_value (nextP b0 base_value P0) := by
  simp [chunkTab, chunkLoopTab, sbwTab, set, envOf, LAYOUT, v, CurrOrNext.shift, nAfter]

theorem rd_ss2 (w : Table F) (row : Nat) (base_value P0 : F × F)
    (b0 b1 b2 b3 b4 n : F) :
    envOf (chunkTab w row base_value [b0, b1, b2, b3, b4] P0 n) row (LAYOUT.ss 2) = s1val b2 base_value (nextP b1 base_value (nextP b0 base_value P0)) := by
  simp [chunkTab, chunkLoopTab, sbwTab, set, envOf, LAYOUT, v, CurrOrNext.shift, nAfter]

theorem rd_ss3 (w : Table F) (row : Nat) (base_value P0 : F × F)
    (b0 b1 b2 b3 b4 n : F) :
    envOf (chunkTab w row base_value [b0, b1, b2, b3, b4] P0 n) row (LAYOUT.ss 3) = s1val b3 base_value (nextP b2 base_value (nextP b1 base_value (nextP b0 base_value P0))) := by
  simp [chunkTab, chunkLoopTab, sbwTab, set, envOf, LAYOUT, v, CurrOrNext.shift, nAfter]

theorem rd_ss4 (w : Table F) (row : Nat) (base_value P0 : F × F)
    (b0 b1 b2 b3 b4 n : F) :
    envOf (chunkTab w row base_value [b0, b1, b2, b3, b4] P0 n) row (LAYOUT.ss 4) = s1val b4 base_value (nextP b3 base_value (nextP b2 base_value (nextP b1 base_value (nextP b0 base_value P0)))) := by
  simp [chunkTab, chunkLoopTab, sbwTab, set, envOf, LAYOUT, v, CurrOrNext.shift, nAfter]

end VarbaseMul

namespace VarbaseMul

variable {F : Type} [Field F] [DecidableEq F]

theorem bool_vanish (b : F) (hb : b = 0 ∨ b = 1) : b * b - b = 0 := by
  rcases hb with rfl | rfl <;> ring

theorem chord_vanish (bv : F) (tv pv : F × F) (h1 : pv.1 - tv.1 ≠ 0) :
    (pv.1 - tv.1) * s1val bv tv pv - (pv.2 - (bv + bv - 1) * tv.2) = 0 := by
  unfold s1val
  field_simp
  ring

theorem outx_vanish (bv : F) (tv pv : F × F)
    (h2 : 2 * pv.1 + tv.1 - s1val bv tv pv * s1val bv tv pv ≠ 0) :
    ((pv.2 + pv.2) - (pv.1 - (s1val bv tv pv * s1val bv tv pv - pv.1 - tv.1)) * s1val bv tv pv) *
      ((pv.2 + pv.2) - (pv.1 - (s1val bv tv pv * s1val bv tv pv - pv.1 - tv.1)) * s1val bv tv pv) -
      (pv.1 - (s1val bv tv pv * s1val bv tv pv - pv.1 - tv.1)) *
        (pv.1 - (s1val bv tv pv * s1val bv tv pv - pv.1 - tv.1)) *
        (outX bv tv pv - tv.1 + s1val bv tv pv * s1val bv tv pv) = 0 := by
  set s := s1val bv tv pv with hs
  unfold outX s2val
  rw [← hs]
  field_simp
  ring

theorem outy_vanish (bv : F) (tv pv : F × F)
    (h2 : 2 * pv.1 + tv.1 - s1val bv tv pv * s1val bv tv pv ≠ 0) :
    (outY bv tv pv + pv.2) * (pv.1 - (s1val bv tv pv * s1val bv tv pv - pv.1 - tv.1)) -
      (pv.1 - outX bv tv pv) *
        ((pv.2 + pv.2) - (pv.1 - (s1val bv tv pv * s1val bv tv pv - pv.1 - tv.1)) * s1val bv tv pv) = 0 := by
  set s := s1val bv tv pv with hs
  unfold outY outX s2val
  rw [← hs]
  field_simp
  ring

theorem single_bit_vanishes (b : Variable) (basev : Variable × Variable)
    (s1 : Variable) (input output : Variable × Variable) (env : Env F)
    (bv : F) (tv pv : F × F)
    (heb : env b = bv) (het1 : env basev.1 = tv.1) (het2 : env basev.2 = tv.2)
    (hep1 : env input.1 = pv.1) (hep2 : env input.2 = pv.2)
    (hes : env s1 = s1val bv tv pv)
    (heo1 : env output.1 = outX bv tv pv) (heo2 : env output.2 = outY bv tv pv)
    (hb : bv = 0 ∨ bv = 1)
    (h1 : pv.1 - tv.1 ≠ 0)
    (h2 : 2 * pv.1 + tv.1 - s1val bv tv pv * s1val bv tv pv ≠ 0) :
    ∀ e ∈ single_bit b basev s1 input output, e env = 0 := by
  intro e he
  simp only [single_bit, List.mem_cons, List.not_mem_nil, or_false] at he
  rcases he with rfl | rfl | rfl | rfl
  · simp only [heb]
    exact bool_vanish bv hb
  · simp only [heb, het1, het2, hep1, hep2, hes]
    linear_combination chord_vanish bv tv pv h1
  · simp only [sbU, sbT, sbRx, heb, het1, het2, hep1, hep2, hes, heo1]
    linear_combination outx_vanish bv tv pv h2
  · simp only [sbU, sbT, sbRx, heb, het1, het2, hep1, hep2, hes, heo1, heo2]
    linear_combination outy_vanish bv tv pv h2

theorem chunkTab_constraints (w : Table F) (row : Nat) (base_value P0 : F × F)
    (b0 b1 b2 b3 b4 n : F)
    (hb0 : b0 = 0 ∨ b0 = 1) (hb1 : b1 = 0 ∨ b1 = 1) (hb2 : b2 = 0 ∨ b2 = 1)
    (hb3 : b3 = 0 ∨ b3 = 1) (hb4 : b4 = 0 ∨ b4 = 1)
    (hok : stepsOk base_value [b0, b1, b2, b3, b4] P0) :
    ∀ e ∈ constraints (F := F),
      e (envOf (chunkTab w row base_value [b0, b1, b2, b3, b4] P0 n) row) = 0 := by
  simp only [stepsOk] at hok
  obtain ⟨h10, h20, h11, h21, h12, h22, h13, h23, h14, h24, -⟩ := hok
  intro e he
  simp only [constraints, List.mem_cons, List.mem_append, List.not_mem_nil,
    or_false] at he
  rcases he with rfl | ((((he | he) | he) | he) | he)
  · simp only [List.foldl_cons, List.foldl_nil]
    rw [rd_nNext w row base_value P0 b0 b1 b2 b3 b4 n, rd_nPrev w row base_value P0 b0 b1 b2 b3 b4 n, rd_bit0 w row base_value P0 b0 b1 b2 b3 b4 n, rd_bit1 w row base_value P0 b0 b1 b2 b3 b4 n, rd_bit2 w row base_value P0 b0 b1 b2 b3 b4 n,
      rd_bit3 w row base_value P0 b0 b1 b2 b3 b4 n, rd_bit4 w row base_value P0 b0 b1 b2 b3 b4 n]
    simp only [nAfter, List.foldl_cons, List.foldl_nil]
    ring
  · exact single_bit_vanishes (LAYOUT.bits 0) LAYOUT.base (LAYOUT.ss 0)
      (LAYOUT.accs 0) (LAYOUT.accs 1) _ b0 base_value P0
      (rd_bit0 w row base_value P0 b0 b1 b2 b3 b4 n) (rd_baseX w row base_value P0 b0 b1 b2 b3 b4 n) (rd_baseY w row base_value P0 b0 b1 b2 b3 b4 n)
      (rd_acc0x w row base_value P0 b0 b1 b2 b3 b4 n) (rd_acc0y w row base_value P0 b0 b1 b2 b3 b4 n) (rd_ss0 w row base_value P0 b0 b1 b2 b3 b4 n)
      (by simpa [nextP] using rd_acc1x w row base_value P0 b0 b1 b2 b3 b4 n)
      (by simpa [nextP] using rd_acc1y w row base_value P0 b0 b1 b2 b3 b4 n)
      hb0 h10 h20 e he
  · exact single_bit_vanishes (LAYOUT.bits 1) LAYOUT.base (LAYOUT.ss 1)
      (LAYOUT.accs 1) (LAYOUT.accs 2) _ b1 base_value (nextP b0 base_value P0)
      (rd_bit1 w row base_value P0 b0 b1 b2 b3 b4 n) (rd_baseX w row base_value P0 b0 b1 b2 b3 b4 n) (rd_baseY w row base_value P0 b0 b1 b2 b3 b4 n)
      (rd_acc1x w row base_value P0 b0 b1 b2 b3 b4 n) (rd_acc1y w row base_value P0 b0 b1 b2 b3 b4 n) (rd_ss1 w row base_value P0 b0 b1 b2 b3 b4 n)
      (by simpa [nextP] using rd_acc2x w row base_value P0 b0 b1 b2 b3 b4 n)
      (by simpa [nextP] using rd_acc2y w row base_value P0 b0 b1 b2 b3 b4 n)
      hb1 h11 h21 e he
  · exact single_bit_vanishes (LAYOUT.bits 2) LAYOUT.base (LAYOUT.ss 2)
      (LAYOUT.accs 2) (LAYOUT.accs 3) _ b2 base_value (nextP b1 base_value (nextP b0 base_value P0))
      (rd_bit2 w row base_value P0 b0 b1 b2 b3 b4 n) (rd_baseX w row base_value P0 b0 b1 b2 b3 b4 n) (rd_baseY w row base_value P0 b0 b1 b2 b3 b4 n)
      (rd_acc2x w row base_value P0 b0 b1 b2 b3 b4 n) (rd_acc2y w row base_value P0 b0 b1 b2 b3 b4 n) (rd_ss2 w row base_value P0 b0 b1 b2 b3 b4 n)
      (by simpa [nextP] using rd_acc3x w row base_value P0 b0 b1 b2 b3 b4 n)
      (by simpa [nextP] using rd_acc3y w row base_value P0 b0 b1 b2 b3 b4 n)
      hb2 h12 h22 e he
  · exact single_bit_vanishes (LAYOUT.bits 3) LAYOUT.base (LAYOUT.ss 3)
      (LAYOUT.accs 3) (LAYOUT.accs 4) _ b3 base_value (nextP b2 base_value (nextP b1 base_value (nextP b0 base_value P0)))
      (rd_bit3 w row base_value P0 b0 b1 b2 b3 b4 n) (rd_baseX w row base_value P0 b0 b1 b2 b3 b4 n) (rd_baseY w row base_value P0 b0 b1 b2 b3 b4 n)
      (rd_acc3x w row base_value P0 b0 b1 b2 b3 b4 n) (rd_acc3y w row base_value P0 b0 b1 b2 b3 b4 n) (rd_ss3 w row base_value P0 b0 b1 b2 b3 b4 n)
      (by simpa [nextP] using rd_acc4x w row base_value P0 b0 b1 b2 b3 b4 n)
      (by simpa [nextP] using rd_acc4y w row base_value P0 b0 b1 b2 b3 b4 n)
      hb3 h13 h23 e he
  · exact single_bit_vanishes (LAYOUT.bits 4) LAYOUT.base (LAYOUT.ss 4)
      (LAYOUT.accs 4) (LAYOUT.accs 5) _ b4 base_value (nextP b3 base_value (nextP b2 base_value (nextP b1 base_value (nextP b0 base_value P0))))
      (rd_bit4 w row base_value P0 b0 b1 b2 b3 b4 n) (rd_baseX w row base_value P0 b0 b1 b2 b3 b4 n) (rd_baseY w row base_value P0 b0 b1 b2 b3 b4 n)
      (rd_acc4x w row base_value P0 b0 b1 b2 b3 b4 n) (rd_acc4y w row base_value P0 b0 b1 b2 b3 b4 n) (rd_ss4 w row base_value P0 b0 b1 b2 b3 b4 n)
      (by simpa [nextP] using rd_acc5x w row base_value P0 b0 b1 b2 b3 b4 n)
      (by simpa [nextP] using rd_acc5y w row base_value P0 b0 b1 b2 b3 b4 n)
      hb4 h14 h24 e he

theorem chunkLoop_res (row : Nat) (base_value : F × F) :
    ∀ (bs : List F) (w : Table F) (acc : F × F) (n : F) (i : Nat)
      (w' : Table F) (res : (F × F) × F),
      chunkLoop row base_value bs w acc n i = (w', some res) →
      res = (accAfter base_value acc bs, nAfter n bs) := by
  intro bs
  induction bs with
  | nil =>
    intro w acc n i w' res h
    simp only [chunkLoop] at h
    injection h with h1 h2
    injection h2 with h2
    simp [accAfter, nAfter, ← h2]
  | cons bv rest ih =>
    intro w acc n i w' res h
    simp only [chunkLoop] at h
    rcases hsb : single_bit_witness w row (LAYOUT.bits i) LAYOUT.base (LAYOUT.ss i)
        (LAYOUT.accs i) (LAYOUT.accs (i + 1)) bv base_value acc with ⟨w2, o⟩
    rw [hsb] at h
    cases o with
    | none => simp at h
    | some acc2 =>
      obtain ⟨-, -, rfl, -⟩ := single_bit_witness_some hsb
      simpa [accAfter, nAfter] using ih _ _ _ _ _ _ h

theorem witnessChunks_res (base_value : F × F) (bs : List F) (w : Table F)
    (row : Nat) (acc : F × F) (n : F) :
    ∀ (w' : Table F) (res : (F × F) × F),
      witnessChunks base_value bs w row acc n = (w', some res) →
      res = (accAfter base_value acc bs, nAfter n bs) := by
  induction bs, w, row, acc, n using witnessChunks.induct base_value with
  | case1 w row acc n =>
    intro w' res h
    rw [witnessChunks.eq_1] at h
    injection h with h1 h2
    injection h2 with h2
    simp [accAfter, nAfter, ← h2]
  | case2 b0 b1 b2 b3 b4 rest w row acc n wp w2 hcl =>
    intro w' res h
    have hcl' : chunkLoop row base_value [b0, b1, b2, b3, b4]
        (set w row LAYOUT.n_prev n) acc n 0 = (w2, none) := hcl
    rw [witnessChunks.eq_2, hcl'] at h
    simp at h
  | case3 b0 b1 b2 b3 b4 rest w row acc n wp w2 acc2 n2 hcl ih =>
    intro w' res h
    have hcl' : chunkLoop row base_value [b0, b1, b2, b3, b4]
        (set w row LAYOUT.n_prev n) acc n 0 = (w2, some (acc2, n2)) := hcl
    rw [witnessChunks.eq_2, hcl'] at h
    have hres2 := chunkLoop_res row base_value _ _ _ _ _ _ _ hcl'
    injection hres2 with ha hn
    subst ha
    subst hn
    rw [ih w' res h]
    simp [accAfter, nAfter]
  | case4 bs w row acc n hne hns wp w2 hcl =>
    intro w' res h
    have hcl' : chunkLoop row base_value bs
        (set w row LAYOUT.n_prev n) acc n 0 = (w2, none) := hcl
    rw [witnessChunks.eq_3 base_value bs w row acc n hne hns, hcl'] at h
    simp at h
  | case5 bs w row acc n hne hns wp w2 acc2 n2 hcl =>
    intro w' res h
    have hcl' : chunkLoop row base_value bs
        (set w row LAYOUT.n_prev n) acc n 0 = (w2, some (acc2, n2)) := hcl
    rw [witnessChunks.eq_3 base_value bs w row acc n hne hns, hcl'] at h
    injection h with h1 h2
    injection h2 with h2
    rw [← h2]
    exact chunkLoop_res row base_value _ _ _ _ _ _ _ hcl'

theorem witnessChunks_range (base_value : F × F) (bs : List F) (w : Table F)
    (row : Nat) (acc : F × F) (n : F) :
    ∀ c r, (r < row ∨ row + 2 * ((bs.length + 4) / 5) ≤ r) →
      (witnessChunks base_value bs w row acc n).1 c r = w c r := by
  induction bs, w, row, acc, n using witnessChunks.induct base_value with
  | case1 w row acc n => intro c r hr; rfl
  | case2 b0 b1 b2 b3 b4 rest w row acc n wp w2 hcl =>
    intro c r hr
    have hr2 : r < row ∨ row + 2 ≤ r := by
      rcases hr with hr | hr
      · exact Or.inl hr
      · right; simp only [List.length_cons] at hr; omega
    have hcl' : chunkLoop row base_value [b0, b1, b2, b3, b4]
        (set w row LAYOUT.n_prev n) acc n 0 = (w2, none) := hcl
    rw [witnessChunks.eq_2, hcl']
    have h2 : w2 c r = (set w row LAYOUT.n_prev n) c r := by
      have := chunkLoop_out hr2 base_value [b0, b1, b2, b3, b4]
        (set w row LAYOUT.n_prev n) acc n 0 c
      rwa [hcl'] at this
    exact h2.trans (set_out hr2 w LAYOUT.n_prev n c)
  | case3 b0 b1 b2 b3 b4 rest w row acc n wp w2 acc2 n2 hcl ih =>
    intro c r hr
    have hr2 : r < row ∨ row + 2 ≤ r := by
      rcases hr with hr | hr
      · exact Or.inl hr
      · right; simp only [List.length_cons] at hr; omega
    have hrrec : r < row + 2 ∨ row + 2 + 2 * ((rest.length + 4) / 5) ≤ r := by
      rcases hr with hr | hr
      · left; omega
      · right; simp only [List.length_cons] at hr; omega
    have hcl' : chunkLoop row base_value [b0, b1, b2, b3, b4]
        (set w row LAYOUT.n_prev n) acc n 0 = (w2, some (acc2, n2)) := hcl
    rw [witnessChunks.eq_2, hcl']
    have h2 : w2 c r = (set w row LAYOUT.n_prev n) c r := by
      have := chunkLoop_out hr2 base_value [b0, b1, b2, b3, b4]
        (set w row LAYOUT.n_prev n) acc n 0 c
      rwa [hcl'] at this
    calc (witnessChunks base_value rest (set w2 row LAYOUT.n_next n2) (row + 2) acc2 n2).1 c r
        = (set w2 row LAYOUT.n_next n2) c r := ih c r hrrec
      _ = w2 c r := set_out hr2 w2 LAYOUT.n_next n2 c
      _ = (set w row LAYOUT.n_prev n) c r := h2
      _ = w c r := set_out hr2 w LAYOUT.n_prev n c
  | case4 bs w row acc n hne hns wp w2 hcl =>
    intro c r hr
    have hlen1 : 1 ≤ bs.length := by
      rcases bs with _ | ⟨x, l⟩
      · exact absurd rfl hne
      · simp
    have hr2 : r < row ∨ row + 2 ≤ r := by
      rcases hr with hr | hr
      · exact Or.inl hr
      · right; omega
    have hcl' : chunkLoop row base_value bs
        (set w row LAYOUT.n_prev n) acc n 0 = (w2, none) := hcl
    rw [witnessChunks.eq_3 base_value bs w row acc n hne hns, hcl']
    have h2 : w2 c r = (set w row LAYOUT.n_prev n) c r := by
      have := chunkLoop_out hr2 base_value bs
        (set w row LAYOUT.n_prev n) acc n 0 c
      rwa [hcl'] at this
    exact h2.trans (set_out hr2 w LAYOUT.n_prev n c)
  | case5 bs w row acc n hne hns wp w2 acc2 n2 hcl =>
    intro c r hr
    have hlen1 : 1 ≤ bs.length := by
      rcases bs with _ | ⟨x, l⟩
      · exact absurd rfl hne
      · simp
    have hr2 : r < row ∨ row + 2 ≤ r := by
      rcases hr with hr | hr
      · exact Or.inl hr
      · right; omega
    have hcl' : chunkLoop row base_value bs
        (set w row LAYOUT.n_prev n) acc n 0 = (w2, some (acc2, n2)) := hcl
    rw [witnessChunks.eq_3 base_value bs w row acc n hne hns, hcl']
    have h2 : w2 c r = (set w row LAYOUT.n_prev n) c r := by
      have := chunkLoop_out hr2 base_value bs
        (set w row LAYOUT.n_prev n) acc n 0 c
      rwa [hcl'] at this
    calc (set w2 row LAYOUT.n_next n2) c r
        = w2 c r := set_out hr2 w2 LAYOUT.n_next n2 c
      _ = (set w row LAYOUT.n_prev n) c r := h2
      _ = w c r := set_out hr2 w LAYOUT.n_prev n c

/-- C1: for every base point, initial accumulator, starting row and bit
sequence whose length is a multiple of 5 on which the witness generator
completes (no single-bit step hits a degenerate chord, i.e. no division by
zero), every one of the 21 expressions returned by `constraints` evaluates
to zero at the cell values written by `witness`, for every two-row gate
window of the run. -/
theorem C1_constraint_soundness (base acc0 : F × F) (row0 : Nat)
    (bits : List Bool) (w : Table F)
    (h5 : bits.length % 5 = 0)
    (hok : ((witness w row0 base bits acc0).2).isSome = true) :
    ∀ cN < bits.length / 5, ∀ e ∈ constraints (F := F),
      e (envOf ((witness w row0 base bits acc0).1) (row0 + 2 * cN)) = 0 := by
  intro cN hcN e he
  have hchk : 5 * (bits.length / 5) = bits.length := by omega
  rw [witness, if_pos hchk] at hok ⊢
  rcases hres : witnessChunks base (bits.map boolToF) w row0 acc0 0 with ⟨w', o⟩
  cases o with
  | none =>
    rw [hres] at hok
    exact Bool.noConfusion hok
  | some res =>
    obtain ⟨wc, c0, c1, c2, c3, c4, accPrev, nPrev, hdrop, hsteps, henv⟩ :=
      witnessChunks_window base cN (bits.map boolToF) w row0 acc0 0 w' res hres
        (by simp only [List.length_map]; omega)
    have hmem : ∀ x ∈ [c0, c1, c2, c3, c4], x = 0 ∨ x = 1 := by
      intro x hx
      have hx1 : x ∈ ((bits.map boolToF).drop (5 * cN)).take 5 := by
        rw [hdrop]; exact hx
      have hx2 : x ∈ bits.map boolToF :=
        List.mem_of_mem_drop (List.mem_of_mem_take hx1)
      obtain ⟨bb, -, rfl⟩ := List.mem_map.mp hx2
      cases bb
      · left; simp [boolToF]
      · right; simp [boolToF]
    show e (envOf w' (row0 + 2 * cN)) = 0
    rw [henv]
    exact chunkTab_constraints wc (row0 + 2 * cN) base accPrev c0 c1 c2 c3 c4 nPrev
      (hmem c0 (by simp)) (hmem c1 (by simp)) (hmem c2 (by simp))
      (hmem c3 (by simp)) (hmem c4 (by simp)) hsteps e he

/-- Witness for C1: a concrete successful five-bit run over `GF13`; the
first constraint (the running-scalar recurrence) of the only window
evaluates to zero. -/
theorem C1_constraint_soundness_witness :
    ([true, false, true, true, false].length % 5 = 0) ∧
    (((witness w0 0 Tc [true, false, true, true, false] Pc).2).isSome = true) ∧
    (fun env : Env GF13 => env LAYOUT.n_next -
        List.foldl (fun acc b => env b + (acc + acc)) (env LAYOUT.n_prev)
          [LAYOUT.bits 0, LAYOUT.bits 1, LAYOUT.bits 2, LAYOUT.bits 3, LAYOUT.bits 4])
      (envOf ((witness w0 0 Tc [true, false, true, true, false] Pc).1) (0 + 2 * 0)) = 0 :=
  ⟨by decide, by decide,
    C1_constraint_soundness Tc Pc 0 [true, false, true, true, false] w0
      (by decide) (by decide) 0 (by decide) _
      (by rw [constraints]; exact List.mem_cons_self _ _)⟩

/-- C2 counterexample: over `GF13`, at a concrete successful five-bit run
with chunk bits `[1,0,1,1,0]` (in processing order) and written
running-scalar-before `0`, the written running-scalar-after does not equal
`bit0 + 2*(bit1 + 2*(bit2 + 2*(bit3 + 2*(bit4 + 2*before))))` as the claim
states: the code gives the first processed bit the highest weight, not the
lowest. -/
theorem C2_counterexample :
    ¬ ((witness w0 0 Tc [true, false, true, true, false] Pc).1 5 0 =
        boolToF true + 2 * (boolToF false + 2 * (boolToF true + 2 * (boolToF true +
          2 * (boolToF false +
            2 * ((witness w0 0 Tc [true, false, true, true, false] Pc).1 4 0)))))) := by
  decide

/-- C2 (amended): for every successful run, the running scalar written after
each chunk satisfies `after = bit4 + 2*(bit3 + 2*(bit2 + 2*(bit1 + 2*(bit0 +
2*before))))` with `bit0..bit4` the chunk's bits in processing order (the
first processed bit is the most significant), equivAlently a left fold; and
the head expression produced by `constraints` is exactly the matching
recurrence `n_next - (b4 + 2*(b3 + 2*(b2 + 2*(b1 + 2*(b0 + 2*n_prev)))))`. -/
theorem C2_running_scalar (w : Table F) (row0 : Nat) (base acc0 : F × F)
    (bits : List Bool) (h5 : bits.length % 5 = 0)
    (hok : ((witness w row0 base bits acc0).2).isSome = true) :
    (∀ cN < bits.length / 5,
      (witness w row0 base bits acc0).1 5 (row0 + 2 * cN) =
        List.foldl (fun a bv => 2 * a + bv)
          ((witness w row0 base bits acc0).1 4 (row0 + 2 * cN))
          (((bits.map boolToF).drop (5 * cN)).take 5)) ∧
    ∃ rec, (constraints (F := F)).head? = some rec ∧
      ∀ env : Env F, rec env =
        env LAYOUT.n_next -
          (env (LAYOUT.bits 4) + 2 * (env (LAYOUT.bits 3) + 2 * (env (LAYOUT.bits 2) +
            2 * (env (LAYOUT.bits 1) + 2 * (env (LAYOUT.bits 0) +
              2 * env LAYOUT.n_prev))))) := by
  constructor
  · intro cN hcN
    have hchk : 5 * (bits.length / 5) = bits.length := by omega
    rw [witness, if_pos hchk] at hok ⊢
    rcases hres : witnessChunks base (bits.map boolToF) w row0 acc0 0 with ⟨w', o⟩
    cases o with
    | none =>
      rw [hres] at hok
      exact Bool.noConfusion hok
    | some res =>
      obtain ⟨wc, c0, c1, c2, c3, c4, accPrev, nPrev, hdrop, hsteps, henv⟩ :=
        witnessChunks_window base cN (bits.map boolToF) w row0 acc0 0 w' res hres
          (by simp only [List.length_map]; omega)
      rw [hdrop]
      have h5r := congrFun henv LAYOUT.n_next
      rw [rd_nNext wc (row0 + 2 * cN) base accPrev c0 c1 c2 c3 c4 nPrev] at h5r
      have h4r := congrFun henv LAYOUT.n_prev
      rw [rd_nPrev wc (row0 + 2 * cN) base accPrev c0 c1 c2 c3 c4 nPrev] at h4r
      show w' 5 (row0 + 2 * cN) =
        List.foldl (fun a bv => 2 * a + bv) (w' 4 (row0 + 2 * cN)) [c0, c1, c2, c3, c4]
      have hL : w' 5 (row0 + 2 * cN) = nAfter nPrev [c0, c1, c2, c3, c4] := h5r
      have hP : w' 4 (row0 + 2 * cN) = nPrev := h4r
      rw [hL, hP]
      rfl
  · refine ⟨_, rfl, ?_⟩
    intro env
    simp only [List.foldl_cons, List.foldl_nil]
    ring

/-- Witness for C2's amended theorem: the concrete five-bit `GF13` run, first
chunk. -/
theorem C2_running_scalar_witness :
    ([true, false, true, true, false].length % 5 = 0) ∧
    (witness w0 0 Tc [true, false, true, true, false] Pc).1 5 (0 + 2 * 0) =
      List.foldl (fun a bv => 2 * a + bv)
        ((witness w0 0 Tc [true, false, true, true, false] Pc).1 4 (0 + 2 * 0))
        ((([true, false, true, true, false].map boolToF).drop (5 * 0)).take 5) :=
  ⟨by decide,
    (C2_running_scalar w0 0 Tc Pc [true, false, true, true, false]
      (by decide) (by decide)).1 0 (by decide)⟩

/-- C3: whenever the witness generator completes on the bit sequence
`[1,0,1,1,0]`, the running scalar it returns is the field element 22. -/
theorem C3_scalar_value (w : Table F) (row0 : Nat) (base acc0 : F × F)
    (acc : F × F) (n : F)
    (h : (witness w row0 base [true, false, true, true, false] acc0).2 = some (acc, n)) :
    n = 22 := by
  rw [witness, if_pos (by norm_num)] at h
  rcases hres : witnessChunks base ([true, false, true, true, false].map boolToF)
      w row0 acc0 0 with ⟨w', o⟩
  rw [hres] at h
  cases o with
  | none => exact Option.noConfusion h
  | some res =>
    have hres2 := witnessChunks_res base _ w row0 acc0 0 w' res hres
    simp only [Option.some.injEq] at h
    rw [h] at hres2
    have hn := congrArg Prod.snd hres2
    simp only at hn
    rw [hn]
    simp only [List.map_cons, List.map_nil, boolToF, nAfter, List.foldl_cons,
      List.foldl_nil, if_true, if_false]
    norm_num

/-- Witness for C3: the concrete `GF13` run returns running scalar `9`, which
is the field element `22` in `GF13`. -/
theorem C3_scalar_value_witness :
    ((witness w0 0 Tc [true, false, true, true, false] Pc).2 = some ((0, 8), 9)) ∧
    (9 : GF13) = 22 :=
  ⟨by decide, C3_scalar_value w0 0 Tc Pc (0, 8) 9 (by decide)⟩

theorem s1val_spec (bv : F) (tv pv : F × F) :
    s1val bv tv pv = (pv.2 - (2 * bv - 1) * tv.2) / (pv.1 - tv.1) := by
  unfold s1val
  ring_nf

/-- C4: for a boolean bit, base point and input accumulator with both
denominators nonzero, the concrete single-bit step writes the chord slope
`s1 = (Py - (2b-1)*Ty)/(Px - Tx)`, and returns and writes the output point
`Rx = Tx + s2^2 - s1^2`, `Ry = (Px - Rx)*s2 - Py` where
`s2 = 2*Py/(2*Px + Tx - s1^2) - s1`. -/
theorem C4_single_bit_step (w : Table F) (row i : Nat) (hi : i < 5) (bv : F)
    (hb : bv = 0 ∨ bv = 1) (tv pv : F × F)
    (h1 : pv.1 - tv.1 ≠ 0)
    (h2 : 2 * pv.1 + tv.1 -
        ((pv.2 - (2 * bv - 1) * tv.2) / (pv.1 - tv.1)) *
          ((pv.2 - (2 * bv - 1) * tv.2) / (pv.1 - tv.1)) ≠ 0) :
    let s1c := (pv.2 - (2 * bv - 1) * tv.2) / (pv.1 - tv.1)
    let s2c := 2 * pv.2 / (2 * pv.1 + tv.1 - s1c * s1c) - s1c
    let res := single_bit_witness w row (LAYOUT.bits i) LAYOUT.base (LAYOUT.ss i)
      (LAYOUT.accs i) (LAYOUT.accs (i + 1)) bv tv pv
    res.2 = some (tv.1 + s2c * s2c - s1c * s1c,
        (pv.1 - (tv.1 + s2c * s2c - s1c * s1c)) * s2c - pv.2) ∧
      envOf res.1 row (LAYOUT.ss i) = s1c ∧
      envOf res.1 row (LAYOUT.accs (i + 1)).1 = tv.1 + s2c * s2c - s1c * s1c ∧
      envOf res.1 row (LAYOUT.accs (i + 1)).2 =
        (pv.1 - (tv.1 + s2c * s2c - s1c * s1c)) * s2c - pv.2 := by
  have hs1 : s1val bv tv pv = (pv.2 - (2 * bv - 1) * tv.2) / (pv.1 - tv.1) :=
    s1val_spec bv tv pv
  have h2' : 2 * pv.1 + tv.1 - s1val bv tv pv * s1val bv tv pv ≠ 0 := by
    rw [hs1]; exact h2
  have hs2 : s2val bv tv pv =
      2 * pv.2 / (2 * pv.1 + tv.1 -
          ((pv.2 - (2 * bv - 1) * tv.2) / (pv.1 - tv.1)) *
            ((pv.2 - (2 * bv - 1) * tv.2) / (pv.1 - tv.1))) -
        (pv.2 - (2 * bv - 1) * tv.2) / (pv.1 - tv.1) := by
    unfold s2val
    rw [hs1]
  have hx : outX bv tv pv = tv.1 + s2val bv tv pv * s2val bv tv pv -
      s1val bv tv pv * s1val bv tv pv := rfl
  dsimp only
  rw [single_bit_witness_eq w row (LAYOUT.bits i) LAYOUT.base (LAYOUT.ss i)
    (LAYOUT.accs i) (LAYOUT.accs (i + 1)) bv tv pv h1 h2']
  refine ⟨?_, ?_, ?_, ?_⟩
  · simp only [nextP, outX, outY, hs2, hs1]
  · interval_cases i <;>
      simp [sbwTab, set, envOf, LAYOUT, v, CurrOrNext.shift, hs1]
  · interval_cases i <;>
      simp [sbwTab, set, envOf, LAYOUT, v, CurrOrNext.shift, outX, hs2, hs1]
  · interval_cases i <;>
      simp [sbwTab, set, envOf, LAYOUT, v, CurrOrNext.shift, outY, outX, hs2, hs1]

/-- Witness for C4: the concrete step over `GF13` with bit `1`, base `Tc`,
input `Pc`. -/
theorem C4_single_bit_step_witness :
    Pc.1 - Tc.1 ≠ 0 ∧
    (let s1c := (Pc.2 - (2 * (1 : GF13) - 1) * Tc.2) / (Pc.1 - Tc.1)
     let s2c := 2 * Pc.2 / (2 * Pc.1 + Tc.1 - s1c * s1c) - s1c
     let res := single_bit_witness w0 0 (LAYOUT.bits 0) LAYOUT.base (LAYOUT.ss 0)
       (LAYOUT.accs 0) (LAYOUT.accs (0 + 1)) 1 Tc Pc
     res.2 = some (Tc.1 + s2c * s2c - s1c * s1c,
         (Pc.1 - (Tc.1 + s2c * s2c - s1c * s1c)) * s2c - Pc.2) ∧
       envOf res.1 0 (LAYOUT.ss 0) = s1c ∧
       envOf res.1 0 (LAYOUT.accs (0 + 1)).1 = Tc.1 + s2c * s2c - s1c * s1c ∧
       envOf res.1 0 (LAYOUT.accs (0 + 1)).2 =
         (Pc.1 - (Tc.1 + s2c * s2c - s1c * s1c)) * s2c - Pc.2) :=
  ⟨by decide,
    C4_single_bit_step w0 0 0 (by decide) 1 (Or.inr rfl) Tc Pc (by decide) (by decide)⟩

/-- C5 counterexample: the auxiliary symbolic expression `t` of `single_bit`
is not `Px - Rx` with `Rx` the step's output cell: at the assignment that is
`1` on the output-x cell of bit 0 and `0` elsewhere, the code's `t`
evaluates to `0` while `Px - Rx` evaluates to `-1`. -/
theorem C5_counterexample :
    ¬ ((∀ (env : Env GF13) (i : Nat), i < 5 →
          sbT (LAYOUT.ss i) (LAYOUT.accs i) LAYOUT.base env =
            env (LAYOUT.accs i).1 - env (LAYOUT.accs (i + 1)).1) ∧
       (∀ (env : Env GF13) (i : Nat), i < 5 →
          (single_bit (LAYOUT.bits i) LAYOUT.base (LAYOUT.ss i) (LAYOUT.accs i)
              (LAYOUT.accs (i + 1))).map (fun e => e env) =
            [env (LAYOUT.bits i) * (env (LAYOUT.bits i) - 1),
             (env (LAYOUT.accs i).1 - env LAYOUT.base.1) * env (LAYOUT.ss i) -
               (env (LAYOUT.accs i).2 -
                 (2 * env (LAYOUT.bits i) - 1) * env LAYOUT.base.2),
             (2 * env (LAYOUT.accs i).2 -
                 (env (LAYOUT.accs i).1 - env (LAYOUT.accs (i + 1)).1) *
                   env (LAYOUT.ss i)) *
                 (2 * env (LAYOUT.accs i).2 -
                   (env (LAYOUT.accs i).1 - env (LAYOUT.accs (i + 1)).1) *
                     env (LAYOUT.ss i)) -
               (env (LAYOUT.accs i).1 - env (LAYOUT.accs (i + 1)).1) *
                 (env (LAYOUT.accs i).1 - env (LAYOUT.accs (i + 1)).1) *
                 (env (LAYOUT.accs (i + 1)).1 - env LAYOUT.base.1 +
                   env (LAYOUT.ss i) * env (LAYOUT.ss i)),
             (env (LAYOUT.accs (i + 1)).2 + env (LAYOUT.accs i).2) *
                 (env (LAYOUT.accs i).1 - env (LAYOUT.accs (i + 1)).1) -
               (env (LAYOUT.accs i).1 - env (LAYOUT.accs (i + 1)).1) *
                 (2 * env (LAYOUT.accs i).2 -
                   (env (LAYOUT.accs i).1 - env (LAYOUT.accs (i + 1)).1) *
                     env (LAYOUT.ss i))])) := by
  intro hcl
  have hval := hcl.1 (fun var => if var = v .Curr 7 then 1 else 0) 0 (by norm_num)
  revert hval
  decide

/-- C5 (amended): the auxiliary `t` equals `Px - rx` with
`rx = s1^2 - Px - Tx` the chord's third-intersection expression, that is
`t = 2*Px + Tx - s1^2`; `u = 2*Py - t*s1`; and the four identities emitted
per bit are exactly booleanity `b*(b-1)`, chord slope
`(Px - Tx)*s1 - (Py - (2b-1)*Ty)`, output x `u^2 - t^2*(Rx - Tx + s1^2)` and
output y `(Ry + Py)*t - (Px - Rx)*u`, with `Rx, Ry` the output cells. -/
theorem C5_single_bit_shape (b : Variable) (basev : Variable × Variable)
    (s1 : Variable) (input output : Variable × Variable) (env : Env F) :
    (sbT s1 input basev env = 2 * env input.1 + env basev.1 - env s1 * env s1) ∧
    (sbU s1 input basev env = 2 * env input.2 - sbT s1 input basev env * env s1) ∧
    (single_bit b basev s1 input output).map (fun e => e env) =
      [env b * (env b - 1),
       (env input.1 - env basev.1) * env s1 -
         (env input.2 - (2 * env b - 1) * env basev.2),
       (2 * env input.2 - (2 * env input.1 + env basev.1 - env s1 * env s1) * env s1) *
           (2 * env input.2 -
             (2 * env input.1 + env basev.1 - env s1 * env s1) * env s1) -
         (2 * env input.1 + env basev.1 - env s1 * env s1) *
           (2 * env input.1 + env basev.1 - env s1 * env s1) *
           (env output.1 - env basev.1 + env s1 * env s1),
       (env output.2 + env input.2) *
           (2 * env input.1 + env basev.1 - env s1 * env s1) -
         (env input.1 - env output.1) *
           (2 * env input.2 -
             (2 * env input.1 + env basev.1 - env s1 * env s1) * env s1)] := by
  refine ⟨by simp only [sbT, sbRx]; ring, by simp only [sbU]; ring, ?_⟩
  simp only [single_bit, List.map_cons, List.map_nil, List.cons.injEq, and_true]
  refine ⟨by ring, by ring, ?_, ?_⟩ <;> simp only [sbU, sbT, sbRx] <;> ring

/-- C6 counterexample: with bit `1`, base `(1,1)` and input accumulator
`(0,0)` over `GF13`, the input x-coordinate differs from the base
x-coordinate, yet the step still divides by zero (the second denominator
`2*Px + Tx - s1^2` vanishes), refuting the claimed equivalence. -/
theorem C6_counterexample :
    ¬ (((single_bit_witness w0 0 (LAYOUT.bits 0) LAYOUT.base (LAYOUT.ss 0)
          (LAYOUT.accs 0) (LAYOUT.accs 1) (1 : GF13) (1, 1) (0, 0)).2 = none) ↔
        ((0 : GF13) - 1 = 0)) := by
  decide

/-- C6 (amended): the concrete single-bit step fails with a division by zero
if and only if `Px = Tx` (the chord denominator vanishes) or the second
denominator `2*Px + Tx - s1^2` vanishes. -/
theorem C6_division_by_zero (w : Table F) (row : Nat) (b : Variable)
    (basev : Variable × Variable) (s1 : Variable)
    (input output : Variable × Variable) (bv : F) (tv pv : F × F) :
    (single_bit_witness w row b basev s1 input output bv tv pv).2 = none ↔
      (pv.1 - tv.1 = 0 ∨
        2 * pv.1 + tv.1 - s1val bv tv pv * s1val bv tv pv = 0) := by
  simp only [single_bit_witness]
  split_ifs with h1 h2
  · simp [h1]
  · simp [h1, h2]
  · simp [h1, h2]

/-- C7: if the bit count is not a multiple of five, `witness` fails before
writing anything, returning the table exactly as it was; if it is a
multiple of five, the length check passes and the chunk processing runs. -/
theorem C7_length_check (w : Table F) (row0 : Nat) (base acc0 : F × F)
    (bits : List Bool) :
    (¬ 5 ∣ bits.length → witness w row0 base bits acc0 = (w, none)) ∧
    (5 ∣ bits.length →
      witness w row0 base bits acc0 =
        witnessChunks base (bits.map boolToF) w row0 acc0 0) := by
  constructor
  · intro h
    rw [witness, if_neg]
    omega
  · intro h
    rw [witness, if_pos]
    omega

/-- Witness for C7: a one-bit sequence fails leaving the table untouched; an
empty sequence passes the length check. -/
theorem C7_length_check_witness :
    witness w0 0 Tc [true] Pc = (w0, none) ∧
    witness w0 0 Tc ([] : List Bool) Pc =
      witnessChunks Tc (([] : List Bool).map boolToF) w0 0 Pc 0 :=
  ⟨(C7_length_check w0 0 Tc Pc [true]).1 (by decide),
   (C7_length_check w0 0 Tc Pc []).2 (by decide)⟩

/-- C8: a `witness` call on a bit sequence whose length is a multiple of
five modifies only rows in `[row0, row0 + 2*(len/5))`; every cell in a row
outside that range keeps its prior value. -/
theorem C8_frame (w : Table F) (row0 : Nat) (base acc0 : F × F)
    (bits : List Bool) (h5 : bits.length % 5 = 0) (c r : Nat)
    (hr : r < row0 ∨ row0 + 2 * (bits.length / 5) ≤ r) :
    (witness w row0 base bits acc0).1 c r = w c r := by
  rw [witness, if_pos (by omega)]
  apply witnessChunks_range
  simp only [List.length_map]
  omega

/-- Witness for C8: with a five-bit run starting at row 1, rows 0 and 3 are
untouched. -/
theorem C8_frame_witness :
    (witness w0 1 Tc [true, false, true, true, false] Pc).1 2 0 = w0 2 0 ∧
    (witness w0 1 Tc [true, false, true, true, false] Pc).1 2 3 = w0 2 3 :=
  ⟨C8_frame w0 1 Tc Pc [true, false, true, true, false] (by decide) 2 0
      (Or.inl (by decide)),
   C8_frame w0 1 Tc Pc [true, false, true, true, false] (by decide) 2 3
      (Or.inr (by decide))⟩

/-- C10: `verify_vbmul` accepts every gate, row index and witness table: it
performs no validation at all (its body is `Ok(())`). -/
theorem C10_verify_vbmul_ok (g : CircuitGate F) (row : Nat) (wit : Table F) :
    verify_vbmul g row wit = Except.ok () := rfl

/-- C9: `constraints` returns exactly 21 expressions, matching the declared
constant `CONSTRAINTS = 21`, ordered as the running-scalar recurrence first,
followed, for each bit 0 through 4 in order, by that bit's booleanity, chord
slope, output-x and output-y identities. -/
theorem C9_constraints_shape :
    (constraints (F := F)).length = CONSTRAINTS ∧ CONSTRAINTS = 21 ∧
    ∀ env : Env F, (constraints (F := F)).map (fun e => e env) =
      [env LAYOUT.n_next -
        (env (LAYOUT.bits 4) + 2 * (env (LAYOUT.bits 3) + 2 * (env (LAYOUT.bits 2) +
          2 * (env (LAYOUT.bits 1) + 2 * (env (LAYOUT.bits 0) + 2 * env LAYOUT.n_prev))))),
       env (LAYOUT.bits 0) * (env (LAYOUT.bits 0) - 1),
       (env (LAYOUT.accs 0).1 - env LAYOUT.base.1) * env (LAYOUT.ss 0) - (env (LAYOUT.accs 0).2 - (2 * env (LAYOUT.bits 0) - 1) * env LAYOUT.base.2),
       (2 * env (LAYOUT.accs 0).2 - (2 * env (LAYOUT.accs 0).1 + env LAYOUT.base.1 - env (LAYOUT.ss 0) * env (LAYOUT.ss 0)) * env (LAYOUT.ss 0)) * (2 * env (LAYOUT.accs 0).2 - (2 * env (LAYOUT.accs 0).1 + env LAYOUT.base.1 - env (LAYOUT.ss 0) * env (LAYOUT.ss 0)) * env (LAYOUT.ss 0)) - (2 * env (LAYOUT.accs 0).1 + env LAYOUT.base.1 - env (LAYOUT.ss 0) * env (LAYOUT.ss 0)) * (2 * env (LAYOUT.accs 0).1 + env LAYOUT.base.1 - env (LAYOUT.ss 0) * env (LAYOUT.ss 0)) * (env (LAYOUT.accs (0 + 1)).1 - env LAYOUT.base.1 + env (LAYOUT.ss 0) * env (LAYOUT.ss 0)),
       (env (LAYOUT.accs (0 + 1)).2 + env (LAYOUT.accs 0).2) * (2 * env (LAYOUT.accs 0).1 + env LAYOUT.base.1 - env (LAYOUT.ss 0) * env (LAYOUT.ss 0)) - (env (LAYOUT.accs 0).1 - env (LAYOUT.accs (0 + 1)).1) * (2 * env (LAYOUT.accs 0).2 - (2 * env (LAYOUT.accs 0).1 + env LAYOUT.base.1 - env (LAYOUT.ss 0) * env (LAYOUT.ss 0)) * env (LAYOUT.ss 0)),
       env (LAYOUT.bits 1) * (env (LAYOUT.bits 1) - 1),
       (env (LAYOUT.accs 1).1 - env LAYOUT.base.1) * env (LAYOUT.ss 1) - (env (LAYOUT.accs 1).2 - (2 * env (LAYOUT.bits 1) - 1) * env LAYOUT.base.2),
       (2 * env (LAYOUT.accs 1).2 - (2 * env (LAYOUT.accs 1).1 + env LAYOUT.base.1 - env (LAYOUT.ss 1) * env (LAYOUT.ss 1)) * env (LAYOUT.ss 1)) * (2 * env (LAYOUT.accs 1).2 - (2 * env (LAYOUT.accs 1).1 + env LAYOUT.base.1 - env (LAYOUT.ss 1) * env (LAYOUT.ss 1)) * env (LAYOUT.ss 1)) - (2 * env (LAYOUT.accs 1).1 + env LAYOUT.base.1 - env (LAYOUT.ss 1) * env (LAYOUT.ss 1)) * (2 * env (LAYOUT.accs 1).1 + env LAYOUT.base.1 - env (LAYOUT.ss 1) * env (LAYOUT.ss 1)) * (env (LAYOUT.accs (1 + 1)).1 - env LAYOUT.base.1 + env (LAYOUT.ss 1) * env (LAYOUT.ss 1)),
       (env (LAYOUT.accs (1 + 1)).2 + env (LAYOUT.accs 1).2) * (2 * env (LAYOUT.accs 1).1 + env LAYOUT.base.1 - env (LAYOUT.ss 1) * env (LAYOUT.ss 1)) - (env (LAYOUT.accs 1).1 - env (LAYOUT.accs (1 + 1)).1) * (2 * env (LAYOUT.accs 1).2 - (2 * env (LAYOUT.accs 1).1 + env LAYOUT.base.1 - env (LAYOUT.ss 1) * env (LAYOUT.ss 1)) * env (LAYOUT.ss 1)),
       env (LAYOUT.bits 2) * (env (LAYOUT.bits 2) - 1),
       (env (LAYOUT.accs 2).1 - env LAYOUT.base.1) * env (LAYOUT.ss 2) - (env (LAYOUT.accs 2).2 - (2 * env (LAYOUT.bits 2) - 1) * env LAYOUT.base.2),
       (2 * env (LAYOUT.accs 2).2 - (2 * env (LAYOUT.accs 2).1 + env LAYOUT.base.1 - env (LAYOUT.ss 2) * env (LAYOUT.ss 2)) * env (LAYOUT.ss 2)) * (2 * env (LAYOUT.accs 2).2 - (2 * env (LAYOUT.accs 2).1 + env LAYOUT.base.1 - env (LAYOUT.ss 2) * env (LAYOUT.ss 2)) * env (LAYOUT.ss 2)) - (2 * env (LAYOUT.accs 2).1 + env LAYOUT.base.1 - env (LAYOUT.ss 2) * env (LAYOUT.ss 2)) * (2 * env (LAYOUT.accs 2).1 + env LAYOUT.base.1 - env (LAYOUT.ss 2) * env (LAYOUT.ss 2)) * (env (LAYOUT.accs (2 + 1)).1 - env LAYOUT.base.1 + env (LAYOUT.ss 2) * env (LAYOUT.ss 2)),
       (env (LAYOUT.accs (2 + 1)).2 + env (LAYOUT.accs 2).2) * (2 * env (LAYOUT.accs 2).1 + env LAYOUT.base.1 - env (LAYOUT.ss 2) * env (LAYOUT.ss 2)) - (env (LAYOUT.accs 2).1 - env (LAYOUT.accs (2 + 1)).1) * (2 * env (LAYOUT.accs 2).2 - (2 * env (LAYOUT.accs 2).1 + env LAYOUT.base.1 - env (LAYOUT.ss 2) * env (LAYOUT.ss 2)) * env (LAYOUT.ss 2)),
       env (LAYOUT.bits 3) * (env (LAYOUT.bits 3) - 1),
       (env (LAYOUT.accs 3).1 - env LAYOUT.base.1) * env (LAYOUT.ss 3) - (env (LAYOUT.accs 3).2 - (2 * env (LAYOUT.bits 3) - 1) * env LAYOUT.base.2),
       (2 * env (LAYOUT.accs 3).2 - (2 * env (LAYOUT.accs 3).1 + env LAYOUT.base.1 - env (LAYOUT.ss 3) * env (LAYOUT.ss 3)) * env (LAYOUT.ss 3)) * (2 * env (LAYOUT.accs 3).2 - (2 * env (LAYOUT.accs 3).1 + env LAYOUT.base.1 - env (LAYOUT.ss 3) * env (LAYOUT.ss 3)) * env (LAYOUT.ss 3)) - (2 * env (LAYOUT.accs 3).1 + env LAYOUT.base.1 - env (LAYOUT.ss 3) * env (LAYOUT.ss 3)) * (2 * env (LAYOUT.accs 3).1 + env LAYOUT.base.1 - env (LAYOUT.ss 3) * env (LAYOUT.ss 3)) * (env (LAYOUT.accs (3 + 1)).1 - env LAYOUT.base.1 + env (LAYOUT.ss 3) * env (LAYOUT.ss 3)),
       (env (LAYOUT.accs (3 + 1)).2 + env (LAYOUT.accs 3).2) * (2 * env (LAYOUT.accs 3).1 + env LAYOUT.base.1 - env (LAYOUT.ss 3) * env (LAYOUT.ss 3)) - (env (LAYOUT.accs 3).1 - env (LAYOUT.accs (3 + 1)).1) * (2 * env (LAYOUT.accs 3).2 - (2 * env (LAYOUT.accs 3).1 + env LAYOUT.base.1 - env (LAYOUT.ss 3) * env (LAYOUT.ss 3)) * env (LAYOUT.ss 3)),
       env (LAYOUT.bits 4) * (env (LAYOUT.bits 4) - 1),
       (env (LAYOUT.accs 4).1 - env LAYOUT.base.1) * env (LAYOUT.ss 4) - (env (LAYOUT.accs 4).2 - (2 * env (LAYOUT.bits 4) - 1) * env LAYOUT.base.2),
       (2 * env (LAYOUT.accs 4).2 - (2 * env (LAYOUT.accs 4).1 + env LAYOUT.base.1 - env (LAYOUT.ss 4) * env (LAYOUT.ss 4)) * env (LAYOUT.ss 4)) * (2 * env (LAYOUT.accs 4).2 - (2 * env (LAYOUT.accs 4).1 + env LAYOUT.base.1 - env (LAYOUT.ss 4) * env (LAYOUT.ss 4)) * env (LAYOUT.ss 4)) - (2 * env (LAYOUT.accs 4).1 + env LAYOUT.base.1 - env (LAYOUT.ss 4) * env (LAYOUT.ss 4)) * (2 * env (LAYOUT.accs 4).1 + env LAYOUT.base.1 - env (LAYOUT.ss 4) * env (LAYOUT.ss 4)) * (env (LAYOUT.accs (4 + 1)).1 - env LAYOUT.base.1 + env (LAYOUT.ss 4) * env (LAYOUT.ss 4)),
       (env (LAYOUT.accs (4 + 1)).2 + env (LAYOUT.accs 4).2) * (2 * env (LAYOUT.accs 4).1 + env LAYOUT.base.1 - env (LAYOUT.ss 4) * env (LAYOUT.ss 4)) - (env (LAYOUT.accs 4).1 - env (LAYOUT.accs (4 + 1)).1) * (2 * env (LAYOUT.accs 4).2 - (2 * env (LAYOUT.accs 4).1 + env LAYOUT.base.1 - env (LAYOUT.ss 4) * env (LAYOUT.ss 4)) * env (LAYOUT.ss 4))] := by
  refine ⟨by simp [constraints, single_bit, CONSTRAINTS], rfl, ?_⟩
  intro env
  simp only [constraints, single_bit, sbU, sbT, sbRx, List.map_cons,
    List.map_append, List.map_nil, List.cons_append, List.nil_append,
    List.foldl_cons, List.foldl_nil, List.cons.injEq, and_true]
  repeat' apply And.intro
  all_goals ring

end VarbaseMul
